import Mathlib

/-!
# Package `e` (github.com/devem-tech/e): stack-carrying error wrapper

A shallow embedding of `stack.go`.

* Go's `error` interface values are `Option Err` (`none` is the nil interface).
* `Err` enumerates the dynamic values an error can hold: this package's
  `*withStack`, the `*fmt.wrapError` built by `fmt.Errorf` with one `%w`, and
  values of types defined elsewhere, described by what the standard library
  looks at (the methods `Error`, `Unwrap`, `As`, `Is`, `Stack` and `Format`,
  and the outcome of `==`).
* Allocation is explicit: a `State` holds the next fresh address and the
  number of stack captures made so far, and `W`/`Wrap` thread it.
* The goroutine call stack is an explicit argument (innermost frame first),
  and the runtime's symbol tables are a parameter (`Runtime`).
-/

namespace E

/-! ## Data model -/

/-- The maximum number of stack frames to capture (`const depth = 32`). -/
def depth : Nat := 32

/-- The import path of the package, as the test file imports it. -/
def pkgPath : String := "github.com/devem-tech/e"

/-- The package path followed by a dot
(`reflect.TypeOf(withStack{}).PkgPath() + "."`). -/
def selfPkg : String := pkgPath ++ "."

/-- A decoded stack frame (`type Frame struct`). -/
structure Frame where
  Func : String
  File : String
  deriving DecidableEq, Repr

/-- A Go slice of frames: `none` is the nil slice, `some l` a non-nil slice. -/
abbrev Frames := Option (List Frame)

/-- The length of a Go slice (`len`): zero for the nil slice. -/
def Frames.len : Frames → Nat
  | none => 0
  | some l => l.length

/-- The outcome of a comparison with `==` of two interface values: true,
false, or a run-time panic (a comparable struct type that holds, in an
interface field, a value of a type that is not comparable). -/
inductive Cmp where
  | equal
  | differ
  | panics
  deriving DecidableEq, Repr

/-- What the standard library can observe of an error value whose type is
defined outside this package.

* `error`: the result of `Error()`;
* `comparable`: whether the dynamic type is comparable (`errors.Is` compares
  with `==` only then);
* `equals`: the outcome of `==` between this value and the foreign value of
  identity `n`, its own identity included: a value need not equal itself (a
  float type holding NaN), and the comparison may panic;
* `format`: `some t` when the type implements `fmt.Formatter`, `t` being what
  its `Format` writes for the verb `v` without flags;
* `stack`: `some r` when the type has a method `Stack() []Frame`, `r` being
  what it returns;
* `asStack`: `some r` when the type has a method `As(any) bool` that, given a
  `*interface{ Stack() []Frame }`, stores a value whose `Stack()` returns `r`
  and answers true; `none` when there is no such method or it answers false;
* `isTarget`: the method `Is(error) bool`, if any, as a predicate on the
  identity of its argument.

Foreign methods are taken to be pure and to return: a call gives the same
result each time, and a method that panics is outside the model. -/
structure Methods where
  error : String
  comparable : Bool
  stack : Option Frames
  asStack : Option Frames
  isTarget : Option (Nat → Bool)
  equals : Nat → Cmp
  format : Option String

mutual
/-- A non-nil error value.

* `withStack addr err pcs`: a `*withStack` at address `addr`
  (`&withStack{err: err, pcs: pcs}`); `err` is never nil, since the type is
  unexported and `W` is its only constructor;
* `wrapError addr msg err`: the `*fmt.wrapError` that `fmt.Errorf` returns for
  a format with a single `%w`;
* `leaf addr m`: a foreign value without an `Unwrap` method (or whose
  `Unwrap() error` returns nil, which `errors.As` and `errors.Is` treat
  alike);
* `link addr m cause`: a foreign value whose `Unwrap() error` returns `cause`;
* `join addr m causes`: a foreign value whose `Unwrap() []error` returns
  `causes`, nil entries left out (`errors.As` and `errors.Is` skip them). -/
inductive Err where
  | withStack (addr : Nat) (err : Err) (pcs : List Nat)
  | wrapError (addr : Nat) (msg : String) (err : Err)
  | leaf (addr : Nat) (m : Methods)
  | link (addr : Nat) (m : Methods) (cause : Err)
  | join (addr : Nat) (m : Methods) (causes : Errs)

/-- A list of non-nil error values. -/
inductive Errs where
  | nil
  | cons (head : Err) (tail : Errs)
end

/-- The identity of a value: the address of a pointer, or a token that stands
for the value of a non-pointer type. -/
def Err.addr : Err → Nat
  | .withStack a _ _ => a
  | .wrapError a _ _ => a
  | .leaf a _ => a
  | .link a _ _ => a
  | .join a _ _ => a

/-- The method `Error()`: `withStack.Error` returns `w.err.Error()`, a
`*fmt.wrapError` returns its stored message. -/
def Err.Error : Err → String
  | .withStack _ err _ => err.Error
  | .wrapError _ msg _ => msg
  | .leaf _ m => m.error
  | .link _ m _ => m.error
  | .join _ m _ => m.error

/-- The type switch `err.(*withStack)` of the fast path of `W`. -/
def Err.isWithStack : Err → Bool
  | .withStack _ _ _ => true
  | _ => false

/-- Whether the dynamic type has a method `Stack() []Frame`, that is, whether
it is assignable to `interface{ Stack() []Frame }`. -/
def Err.hasStackMethod : Err → Bool
  | .withStack _ _ _ => true
  | .wrapError _ _ _ => false
  | .leaf _ m => m.stack.isSome
  | .link _ m _ => m.stack.isSome
  | .join _ m _ => m.stack.isSome

/-! ## The standard library: `errors.As`, `errors.Is`, `fmt.Errorf` -/

/-- What `errors.As` leaves in a target of type
`*interface{ Stack() []Frame }`: the chain link that was assignable to the
interface, or the value an `As` method stored, known by what its `Stack()`
returns. -/
inductive Target where
  | link (e : Err)
  | assigned (r : Frames)

/-- One round of the loop of `errors.As` at a foreign link: the link is
assignable to the target interface when it has the method `Stack`, and
otherwise its `As` method, if any, is asked. -/
def asHere (m : Methods) (self : Err) : Option Target :=
  match m.stack with
  | some _ => some (.link self)
  | none =>
    match m.asStack with
    | some r => some (.assigned r)
    | none => none

mutual
/-- The call `errors.As(err, &ws)` with `var ws interface{ Stack() []Frame }`,
for a non-nil `err`: `some t` when it returns true having stored `t`, `none`
when it returns false. At each link: the assignability test, then the `As`
method, then `Unwrap() error` (continue with the cause) or `Unwrap() []error`
(depth first over the causes, in order). -/
def errorsAs : Err → Option Target
  | .withStack a err pcs => some (.link (.withStack a err pcs))
  | .wrapError _ _ err => errorsAs err
  | .leaf a m => asHere m (.leaf a m)
  | .link a m cause =>
    match asHere m (.link a m cause) with
    | some t => some t
    | none => errorsAs cause
  | .join a m causes =>
    match asHere m (.join a m causes) with
    | some t => some t
    | none => errorsAsList causes

/-- The `for _, err := range x.Unwrap()` loop of `errors.As`. -/
def errorsAsList : Errs → Option Target
  | .nil => none
  | .cons head tail =>
    match errorsAs head with
    | some t => some t
    | none => errorsAsList tail
end

/-- The dynamic type of a value, as far as `==` needs it: this package's
`*withStack`, `*fmt.wrapError`, or a type defined elsewhere. -/
def Err.kind : Err → Nat
  | .withStack _ _ _ => 0
  | .wrapError _ _ _ => 1
  | _ => 2

/-- Whether the dynamic type is comparable: pointer types always are. -/
def Err.comparable : Err → Bool
  | .withStack _ _ _ => true
  | .wrapError _ _ _ => true
  | .leaf _ m => m.comparable
  | .link _ m _ => m.comparable
  | .join _ m _ => m.comparable

/-- The comparison `err == target` of two non-nil interface values, the type
of `target` being comparable. Values of different dynamic types differ; two
pointers of one type are equal when they are the same address; for two
foreign values the outcome is the one the first gives for the second. -/
def Err.same (x y : Err) : Cmp :=
  if x.kind ≠ y.kind then .differ
  else
    match x with
    | .withStack a _ _ => if a = y.addr then .equal else .differ
    | .wrapError a _ _ => if a = y.addr then .equal else .differ
    | .leaf _ m => m.equals y.addr
    | .link _ m _ => m.equals y.addr
    | .join _ m _ => m.equals y.addr

/-- The method `Is(error) bool` of a link, applied to `target`; false when
the type has no such method. -/
def Err.isMethod (e target : Err) : Bool :=
  match e with
  | .withStack _ _ _ => false
  | .wrapError _ _ _ => false
  | .leaf _ m => match m.isTarget with | some f => f target.addr | none => false
  | .link _ m _ => match m.isTarget with | some f => f target.addr | none => false
  | .join _ m _ => match m.isTarget with | some f => f target.addr | none => false

/-- The test `targetComparable && err == target` of the loop `is`: the
comparison is made only when the type of the target is comparable. -/
def compareStep (targetComparable : Bool) (err target : Err) : Cmp :=
  if targetComparable then err.same target else .differ

mutual
/-- The unexported loop `is` of package `errors`: `some b` when it returns
`b`, `none` when a comparison panics. At each link: the comparison, then the
`Is` method, then `Unwrap() error` or `Unwrap() []error`. -/
def isLoop (target : Err) (targetComparable : Bool) : Err → Option Bool
  | .withStack a err pcs =>
    match compareStep targetComparable (.withStack a err pcs) target with
    | .panics => none
    | .equal => some true
    | .differ => isLoop target targetComparable err
  | .wrapError a msg err =>
    match compareStep targetComparable (.wrapError a msg err) target with
    | .panics => none
    | .equal => some true
    | .differ => isLoop target targetComparable err
  | .leaf a m =>
    match compareStep targetComparable (.leaf a m) target with
    | .panics => none
    | .equal => some true
    | .differ => some ((Err.leaf a m).isMethod target)
  | .link a m cause =>
    match compareStep targetComparable (.link a m cause) target with
    | .panics => none
    | .equal => some true
    | .differ =>
      if (Err.link a m cause).isMethod target then some true
      else isLoop target targetComparable cause
  | .join a m causes =>
    match compareStep targetComparable (.join a m causes) target with
    | .panics => none
    | .equal => some true
    | .differ =>
      if (Err.join a m causes).isMethod target then some true
      else isLoopList target targetComparable causes

/-- The `for _, err := range x.Unwrap()` loop of `is`. -/
def isLoopList (target : Err) (targetComparable : Bool) : Errs → Option Bool
  | .nil => some false
  | .cons head tail =>
    match isLoop target targetComparable head with
    | none => none
    | some true => some true
    | some false => isLoopList target targetComparable tail
end

/-- The call `errors.Is(err, target)`: `some b` when it returns `b`, `none`
when it panics. With a nil argument the result is `err == target`. -/
def errorsIs (err target : Option Err) : Option Bool :=
  match err, target with
  | none, none => some true
  | none, some _ => some false
  | some _, none => some false
  | some e, some t => isLoop t t.comparable e

/-- Allocation state: `next` is the next fresh address, `captures` counts the
calls of `runtime.Callers` made so far. -/
structure State where
  next : Nat
  captures : Nat
  deriving DecidableEq, Repr

/-- The method `Format` of a value whose type implements `fmt.Formatter`,
known by what it writes for the verb `v` without flags. Neither `*withStack`
nor `*fmt.wrapError` has the method. -/
def Err.formatMethod : Err → Option String
  | .withStack _ _ _ => none
  | .wrapError _ _ _ => none
  | .leaf _ m => m.format
  | .link _ m _ => m.format
  | .join _ m _ => m.format

/-- What `fmt` writes for a non-nil error operand of the verb `%w`
(`handleMethods`, which turns the verb into `v`): what the `Format` method
writes when the value implements `fmt.Formatter`, and the result of `Error()`
otherwise. -/
def fmtOperand (err : Err) : String :=
  match err.formatMethod with
  | some t => t
  | none => err.Error

/-- The call `fmt.Errorf("%s: %w", msg, err)` with a non-nil `err`: a fresh
`*fmt.wrapError` whose message is `msg`, a colon, a space and what `fmt`
writes for `err`, and whose `Unwrap()` is `err`. -/
def fmtErrorf (s : State) (msg : String) (err : Err) : Err × State :=
  (.wrapError s.next (msg ++ ": " ++ fmtOperand err) err, { s with next := s.next + 1 })

/-! ## The standard library: `log/slog` -/

/-- A `slog.Value`, for the kinds `LogValue` builds: a string, any other Go
value (here always a slice of frames), or a group of attributes, each a key
and a value. -/
inductive Value where
  | string (s : String)
  | any (v : Frames)
  | group (attrs : List (String × Value))

/-- The method `isEmptyGroup` of `slog.Value`. -/
def Value.isEmptyGroup : Value → Bool
  | .group [] => true
  | _ => false

/-- The function `slog.String`. -/
def slogString (key value : String) : String × Value :=
  (key, .string value)

/-- The function `slog.Any` on a slice of frames, which is none of the types
`slog.AnyValue` treats apart. -/
def slogAny (key : String) (value : Frames) : String × Value :=
  (key, .any value)

/-- The function `slog.GroupValue`: a group of the attributes given, those
whose value is an empty group left out. -/
def slogGroupValue (attrs : List (String × Value)) : Value :=
  .group (attrs.filter fun a => !a.2.isEmptyGroup)

/-! ## The runtime: call stacks and symbol resolution -/

/-- The fields of `runtime.Frame` that `Stack` reads. -/
structure RFrame where
  Function : String
  File : String
  Line : Int
  deriving DecidableEq, Repr

/-- The zero `runtime.Frame`, which the frame iterator returns when it has no
frame left to give. -/
def RFrame.zero : RFrame := ⟨"", "", 0⟩

/-- The runtime the package runs on.

* `pcCallers`, `pcInCallers`, `pcInW`, `pcInWrap`: the program counters the
  stack holds for the frames of `runtime.Callers`, `callers`, `W` and `Wrap`
  while they are active;
* `CallersFrames pcs`: the frames the iterator `runtime.CallersFrames(pcs)`
  yields, in order (one program counter may expand to several frames, or to
  none when it cannot be resolved). -/
structure Runtime where
  pcCallers : Nat
  pcInCallers : Nat
  pcInW : Nat
  pcInWrap : Nat
  CallersFrames : List Nat → List RFrame

/-- The call `runtime.Callers(skip, pc)` on a goroutine whose stack is `stack`
(innermost first, entry 0 being the frame of `Callers` itself) with a buffer
of `size` entries: the entries written, whose number is the result `n`. -/
def runtimeCallers (stack : List Nat) (skip size : Nat) : List Nat :=
  (stack.drop skip).take size

/-- The method `(*runtime.Frames).Next`, the iterator being the list of frames
it has still to yield: the next frame, `more`, and the iterator afterwards.
With nothing left it returns the zero frame and `more = false`. -/
def Next : List RFrame → RFrame × Bool × List RFrame
  | [] => (RFrame.zero, false, [])
  | [f] => (f, false, [])
  | f :: g :: rest => (f, true, g :: rest)

/-- The function `strings.HasPrefix`. -/
def startsWith (s pre : String) : Bool :=
  pre.toList.isPrefixOf s.toList

/-- The function `strconv.Itoa`. -/
def itoa (n : Int) : String := toString n

/-- The filter of `Stack`: the frame belongs to the runtime or to this
package. -/
def internal (f : RFrame) : Bool :=
  startsWith f.Function "runtime." || startsWith f.Function selfPkg

/-- The frame appended for a runtime frame that passes the filter. -/
def mkFrame (f : RFrame) : Frame :=
  ⟨f.Function, f.File ++ ":" ++ itoa f.Line⟩

/-- One pass through the body of the `for` loop of `withStack.Stack`, up to
the test of `more`: `frames` after the pass. -/
def visit (f : RFrame) (frames : List Frame) : List Frame :=
  if internal f then frames else frames ++ [mkFrame f]

/-- The `for` loop of `withStack.Stack`, from an iterator `it` and the frames
collected so far. The three equations are the three cases of `Next`: the loop
ends after the pass in which `more` is false. -/
def stackLoop : List RFrame → List Frame → List Frame
  | [], frames => visit RFrame.zero frames
  | [f], frames => visit f frames
  | f :: g :: rest, frames => stackLoop (g :: rest) (visit f frames)

/-- The method `(w *withStack) Stack() []Frame`, which reads only `w.pcs`. -/
def withStack.Stack (rt : Runtime) (pcs : List Nat) : Frames :=
  if pcs.length = 0 then none
  else some (stackLoop (rt.CallersFrames pcs) [])

/-- The method `(w *withStack) LogValue() slog.Value`, which reads `w.err` and
`w.pcs`. -/
def withStack.LogValue (rt : Runtime) (err : Err) (pcs : List Nat) : Value :=
  slogGroupValue [slogString "msg" err.Error, slogAny "stack" (withStack.Stack rt pcs)]

/-! ## The package -/

/-- The function `callers`, entered with `stack` as the goroutine's stack
(innermost first, entry 0 being the frame of the caller of `callers`). The
buffer has `depth` entries; `runtime.Callers(3, pcs[:])` writes the first `n`,
and the result is a copy of `pcs[:n]`. -/
def callers (rt : Runtime) (s : State) (stack : List Nat) : List Nat × State :=
  let written := runtimeCallers (rt.pcCallers :: rt.pcInCallers :: stack) 3 depth
  let n := written.length
  let pcs := written ++ List.replicate (depth - n) 0
  (pcs.take n, { s with captures := s.captures + 1 })

/-- The function `W`, entered with `stack` as the goroutine's stack (innermost
first, entry 0 being the frame of the caller of `W`). -/
def W (rt : Runtime) (s : State) (stack : List Nat) (err : Option Err) :
    Option Err × State :=
  match err with
  | none => (none, s)
  | some e =>
    if e.isWithStack then (some e, s)
    else if (errorsAs e).isSome then (some e, s)
    else
      let r := callers rt s (rt.pcInW :: stack)
      (some (.withStack r.2.next e r.1), { r.2 with next := r.2.next + 1 })

/-- The function `Wrap`, entered with `stack` as the goroutine's stack
(innermost first, entry 0 being the frame of the caller of `Wrap`). -/
def Wrap (rt : Runtime) (s : State) (stack : List Nat) (err : Option Err)
    (msg : String) : Option Err × State :=
  match err with
  | none => (none, s)
  | some e =>
    let r := fmtErrorf s msg e
    W rt r.2 (rt.pcInWrap :: stack) (some r.1)

/-- The method `Stack()` of a value that has it. -/
def Err.StackMethod (rt : Runtime) : Err → Frames
  | .withStack _ _ pcs => withStack.Stack rt pcs
  | .wrapError _ _ _ => none
  | .leaf _ m => m.stack.getD none
  | .link _ m _ => m.stack.getD none
  | .join _ m _ => m.stack.getD none

/-- The call `ws.Stack()` on what `errors.As` stored. -/
def Target.Stack (rt : Runtime) : Target → Frames
  | .link e => e.StackMethod rt
  | .assigned r => r

/-- The package-level function `Stack`. `errors.As` returns false for a nil
error. -/
def Stack (rt : Runtime) (err : Option Err) : Frames :=
  match err with
  | none => none
  | some e =>
    match errorsAs e with
    | some ws => ws.Stack rt
    | none => none

/-! ## Vocabulary of the specification -/

mutual
/-- The links of the cause chain of an error: the error itself, then all that
unwrapping reaches, in the order `errors.As` and `errors.Is` visit them. -/
def Err.links : Err → List Err
  | .withStack a err pcs => .withStack a err pcs :: err.links
  | .wrapError a msg err => .wrapError a msg err :: err.links
  | .leaf a m => [.leaf a m]
  | .link a m cause => .link a m cause :: cause.links
  | .join a m causes => .join a m causes :: causes.links

/-- The links of the chains of a list of errors. -/
def Errs.links : Errs → List Err
  | .nil => []
  | .cons head tail => head.links ++ tail.links
end

/-- The number of Carriers (`*withStack` values) among the links of a chain. -/
def Err.carriers (e : Err) : Nat :=
  (e.links.filter Err.isWithStack).length

/-- One application of a wrapping operation, with the stack of its caller. -/
inductive Op where
  | w (stack : List Nat)
  | wrap (stack : List Nat) (msg : String)

/-- Apply one operation to an error in a state. -/
def Op.apply (rt : Runtime) (x : Option Err × State) : Op → Option Err × State
  | .w stack => W rt x.2 stack x.1
  | .wrap stack msg => Wrap rt x.2 stack x.1 msg

/-- Apply a sequence of operations, each to the result of the one before. -/
def run (rt : Runtime) (x : Option Err × State) (ops : List Op) :
    Option Err × State :=
  ops.foldl (Op.apply rt) x

/-- What one link of a chain exposes to `errors.As`, on its own: itself when
it is assignable to the target interface, else what its `As` method stores. -/
def Err.here : Err → Option Target
  | .withStack a err pcs => some (.link (.withStack a err pcs))
  | .wrapError _ _ _ => none
  | .leaf a m => asHere m (.leaf a m)
  | .link a m cause => asHere m (.link a m cause)
  | .join a m causes => asHere m (.join a m causes)

/-- The frames the iterator yields to a loop that calls `Next` until `more`
is false: the frames it holds, or the zero frame alone when it holds none. -/
def yielded : List RFrame → List RFrame
  | [] => [RFrame.zero]
  | [f] => [f]
  | f :: g :: rest => f :: yielded (g :: rest)

/-- Decoding as the specification words it: the frames yielded, those of the
runtime and of this package removed, each of the others projected to a
`Frame`, in the original order. -/
def filterThenProject (rt : Runtime) (pcs : List Nat) : List Frame :=
  ((yielded (rt.CallersFrames pcs)).filter fun f =>
    !(startsWith f.Function "runtime." || startsWith f.Function selfPkg)).map
    fun f => ⟨f.Function, f.File ++ ":" ++ itoa f.Line⟩

/-- The variant of `W` the specification compares it with: the same function
without the concrete-type check of the fast path. -/
def WWithoutFastPath (rt : Runtime) (s : State) (stack : List Nat)
    (err : Option Err) : Option Err × State :=
  match err with
  | none => (none, s)
  | some e =>
    if (errorsAs e).isSome then (some e, s)
    else
      let r := callers rt s (rt.pcInW :: stack)
      (some (.withStack r.2.next e r.1), { r.2 with next := r.2.next + 1 })

/-! ## Sample values -/

/-- An initial allocation state. -/
def sampleState : State := ⟨0, 0⟩

/-- A runtime whose symbol table knows `runtime.goexit` at 7, `Wrap` at its
own program counter, and takes every other program counter for a line of
`main.run`. -/
def sampleRuntime : Runtime where
  pcCallers := 900
  pcInCallers := 901
  pcInW := 902
  pcInWrap := 903
  CallersFrames := fun pcs => pcs.map fun pc =>
    if pc = 7 then ⟨"runtime.goexit", "/go/src/runtime/asm_amd64.s", 1700⟩
    else if pc = 903 then ⟨"github.com/devem-tech/e.Wrap", "/e/stack.go", 116⟩
    else ⟨"main.run", "/app/main.go", pc⟩

/-- The methods of a value of a pointer type, at address `addr`, that has
the method `Error` alone: equal to itself and to no other value. -/
def pointerMethods (addr : Nat) (msg : String) : Methods where
  error := msg
  comparable := true
  stack := none
  asStack := none
  isTarget := none
  equals := fun n => if n = addr then .equal else .differ
  format := none

/-- The value of `errors.New("base")`. -/
def sampleBase : Err := .leaf 100 (pointerMethods 100 "base")

/-- An error of a slice type (`type list []string` with an `Error` method):
not comparable, no other method. -/
def sampleSlice : Err :=
  .leaf 101 { pointerMethods 101 "many" with comparable := false }

/-- An error of a foreign type whose method `Stack() []Frame` returns nil. -/
def sampleTraced : Err :=
  .leaf 102 { pointerMethods 102 "traced" with stack := some none }

/-- A foreign wrapper (`Unwrap() error`) around a Carrier. -/
def sampleNested : Err :=
  .link 103 (pointerMethods 103 "outer: base") (.withStack 104 sampleBase [5, 6])

/-- An error whose type implements `fmt.Formatter`: `Error()` returns `plain`
and `Format` writes `formatted`. -/
def sampleFormatted : Err :=
  .leaf 105 { pointerMethods 105 "plain" with format := some "formatted" }

/-- An error of a float type (`type nan float64` with an `Error` method)
holding NaN: the type is comparable and the value differs from itself. -/
def sampleNaN : Err :=
  .leaf 106 { pointerMethods 106 "nan" with equals := fun _ => .differ }

/-- An error of a struct type with an interface field holding a slice: the
type is comparable and comparing the value with itself panics. -/
def samplePayload : Err :=
  .leaf 107 { pointerMethods 107 "payload" with
    equals := fun n => if n = 107 then .panics else .differ }

/-- A runtime with no symbol for any program counter: the frame iterator has
no frame to yield. -/
def sampleStripped : Runtime where
  pcCallers := 900
  pcInCallers := 901
  pcInW := 902
  pcInWrap := 903
  CallersFrames := fun _ => []

/-! ## Lemmas on the standard library model -/

theorem Err.self_mem_links (e : Err) : e ∈ e.links := by
  cases e <;> simp [Err.links]

theorem asHere_of_stack (m : Methods) (self : Err) (h : m.stack.isSome = true) :
    asHere m self = some (.link self) := by
  unfold asHere
  cases hm : m.stack with
  | none => simp [hm] at h
  | some r => rfl

theorem asHere_eq_none (m : Methods) (self : Err) (h : asHere m self = none) :
    m.stack = none ∧ m.asStack = none := by
  unfold asHere at h
  cases hm : m.stack with
  | some r => simp [hm] at h
  | none =>
    cases ha : m.asStack with
    | some r => simp [hm, ha] at h
    | none => exact ⟨rfl, rfl⟩

mutual
/-- A link with the method `Stack` anywhere in the chain makes `errors.As`
succeed. -/
theorem errorsAs_of_link : ∀ (e : Err),
    (∃ l ∈ e.links, l.hasStackMethod = true) → (errorsAs e).isSome = true
  | .withStack _ _ _, _ => by simp [errorsAs]
  | .wrapError a msg err, h => by
    obtain ⟨l, hl, hs⟩ := h
    simp only [Err.links, List.mem_cons] at hl
    rcases hl with rfl | hl
    · simp [Err.hasStackMethod] at hs
    · simpa [errorsAs] using errorsAs_of_link err ⟨l, hl, hs⟩
  | .leaf a m, h => by
    obtain ⟨l, hl, hs⟩ := h
    simp only [Err.links, List.mem_singleton] at hl
    subst hl
    simp only [Err.hasStackMethod] at hs
    simp [errorsAs, asHere_of_stack m _ hs]
  | .link a m cause, h => by
    obtain ⟨l, hl, hs⟩ := h
    simp only [Err.links, List.mem_cons] at hl
    simp only [errorsAs]
    cases hh : asHere m (.link a m cause) with
    | some t => simp
    | none =>
      have hm := (asHere_eq_none m _ hh).1
      rcases hl with rfl | hl
      · simp [Err.hasStackMethod, hm] at hs
      · simpa using errorsAs_of_link cause ⟨l, hl, hs⟩
  | .join a m causes, h => by
    obtain ⟨l, hl, hs⟩ := h
    simp only [Err.links, List.mem_cons] at hl
    simp only [errorsAs]
    cases hh : asHere m (.join a m causes) with
    | some t => simp
    | none =>
      have hm := (asHere_eq_none m _ hh).1
      rcases hl with rfl | hl
      · simp [Err.hasStackMethod, hm] at hs
      · simpa using errorsAsList_of_link causes ⟨l, hl, hs⟩

/-- The same for the causes of a link with `Unwrap() []error`. -/
theorem errorsAsList_of_link : ∀ (es : Errs),
    (∃ l ∈ es.links, l.hasStackMethod = true) → (errorsAsList es).isSome = true
  | .nil, h => by
    obtain ⟨l, hl, _⟩ := h
    simp [Errs.links] at hl
  | .cons head tail, h => by
    obtain ⟨l, hl, hs⟩ := h
    simp only [Errs.links, List.mem_append] at hl
    simp only [errorsAsList]
    cases hh : errorsAs head with
    | some t => simp
    | none =>
      rcases hl with hl | hl
      · have := errorsAs_of_link head ⟨l, hl, hs⟩
        simp [hh] at this
      · simpa using errorsAsList_of_link tail ⟨l, hl, hs⟩
end

theorem isWithStack_hasStackMethod (e : Err) (h : e.isWithStack = true) :
    e.hasStackMethod = true := by
  cases e <;> simp_all [Err.isWithStack, Err.hasStackMethod]

/-- A chain in which `errors.As` finds nothing holds no Carrier. -/
theorem carriers_of_errorsAs_none (e : Err) (h : errorsAs e = none) :
    e.carriers = 0 := by
  unfold Err.carriers
  rw [List.length_eq_zero, List.filter_eq_nil_iff]
  intro l hl hw
  have := errorsAs_of_link e ⟨l, hl, isWithStack_hasStackMethod l hw⟩
  simp [h] at this

theorem isWithStack_of_errorsAs_none (e : Err) (h : errorsAs e = none) :
    e.isWithStack = false := by
  cases e <;> simp_all [Err.isWithStack, errorsAs]

/-! ## Lemmas on the package -/

theorem callers_fst (rt : Runtime) (s : State) (a : Nat) (stack : List Nat) :
    (callers rt s (a :: stack)).1 = stack.take depth := by
  simp [callers, runtimeCallers]

theorem callers_snd (rt : Runtime) (s : State) (stack : List Nat) :
    (callers rt s stack).2 = { s with captures := s.captures + 1 } := rfl

/-- On an error whose chain exposes a stack, `W` returns it and touches
nothing. -/
theorem W_of_exposed (rt : Runtime) (s : State) (stack : List Nat) (e : Err)
    (h : (errorsAs e).isSome = true) : W rt s stack (some e) = (some e, s) := by
  simp [W, h]

/-- On an error whose chain exposes no stack, `W` allocates a Carrier around
it, holding the first `depth` entries of the caller's stack. -/
theorem W_of_hidden (rt : Runtime) (s : State) (stack : List Nat) (e : Err)
    (h : errorsAs e = none) :
    W rt s stack (some e) =
      (some (.withStack s.next e (stack.take depth)),
        { next := s.next + 1, captures := s.captures + 1 }) := by
  simp [W, h, isWithStack_of_errorsAs_none e h, callers_fst, callers_snd]

theorem Wrap_some (rt : Runtime) (s : State) (stack : List Nat) (e : Err)
    (msg : String) :
    Wrap rt s stack (some e) msg =
      W rt { s with next := s.next + 1 } (rt.pcInWrap :: stack)
        (some (.wrapError s.next (msg ++ ": " ++ fmtOperand e) e)) := rfl

theorem errorsAs_wrapError (a : Nat) (msg : String) (e : Err) :
    errorsAs (.wrapError a msg e) = errorsAs e := by
  simp [errorsAs]

theorem internal_zero : internal RFrame.zero = false := by decide

theorem visit_eq (f : RFrame) (frames : List Frame) :
    visit f frames = frames ++ (if internal f then [] else [mkFrame f]) := by
  unfold visit
  split <;> simp

/-- The loop of `withStack.Stack` in terms of `Next`: one pass over the frame
`Next` returns, and another round exactly when `more` is true. -/
theorem stackLoop_Next (it : List RFrame) (frames : List Frame) :
    stackLoop it frames =
      if (Next it).2.1 then stackLoop (Next it).2.2 (visit (Next it).1 frames)
      else visit (Next it).1 frames := by
  match it with
  | [] => simp [stackLoop, Next]
  | [f] => simp [stackLoop, Next]
  | f :: g :: rest => simp [stackLoop, Next]

/-- The loop of `withStack.Stack` on an iterator that has frames to yield:
the frames that pass the filter are appended, in order. -/
theorem stackLoop_eq : ∀ (it : List RFrame) (frames : List Frame), it ≠ [] →
    stackLoop it frames =
      frames ++ (it.filter fun f => !internal f).map mkFrame
  | [], _, h => absurd rfl h
  | [f], frames, _ => by
    simp only [stackLoop, visit_eq]
    cases h : internal f <;> simp [h, List.filter_cons]
  | f :: g :: rest, frames, _ => by
    rw [stackLoop, stackLoop_eq (g :: rest) _ (by simp), visit_eq]
    cases h : internal f <;> simp [h, List.filter_cons]

/-- The loop of `withStack.Stack` on an iterator with nothing to yield: one
frame is appended, made from the zero frame. -/
theorem stackLoop_nil (frames : List Frame) :
    stackLoop [] frames = frames ++ [mkFrame RFrame.zero] := by
  simp [stackLoop, visit_eq, internal_zero]

/-- Every frame the loop adds comes from a runtime frame that passed the
filter. -/
theorem mem_stackLoop (it : List RFrame) (fr : Frame)
    (h : fr ∈ stackLoop it []) : ∃ f, internal f = false ∧ fr = mkFrame f := by
  cases it with
  | nil =>
    rw [stackLoop_nil] at h
    simp only [List.nil_append, List.mem_singleton] at h
    exact ⟨RFrame.zero, internal_zero, h⟩
  | cons a rest =>
    rw [stackLoop_eq _ _ (by simp)] at h
    simp only [List.nil_append, List.mem_map, List.mem_filter] at h
    obtain ⟨f, ⟨_, hf⟩, rfl⟩ := h
    exact ⟨f, by simpa using hf, rfl⟩

theorem Stack_withStack (rt : Runtime) (a : Nat) (e : Err) (pcs : List Nat) :
    Stack rt (some (.withStack a e pcs)) = withStack.Stack rt pcs := by
  simp [Stack, errorsAs, Target.Stack, Err.StackMethod]

theorem Stack_wrapError (rt : Runtime) (a : Nat) (msg : String) (e : Err) :
    Stack rt (some (.wrapError a msg e)) = Stack rt (some e) := by
  simp [Stack, errorsAs]

theorem take_depth_ne_nil (stack : List Nat) (h : stack ≠ []) :
    stack.take depth ≠ [] := by
  cases stack with
  | nil => exact absurd rfl h
  | cons a rest => simp [depth]

theorem carriers_wrapError (a : Nat) (msg : String) (e : Err) :
    (Err.wrapError a msg e).carriers = e.carriers := by
  simp [Err.carriers, Err.links, List.filter_cons, Err.isWithStack]

theorem carriers_withStack (a : Nat) (e : Err) (pcs : List Nat) :
    (Err.withStack a e pcs).carriers = e.carriers + 1 := by
  simp [Err.carriers, Err.links, List.filter_cons, Err.isWithStack]

/-- One operation on an error whose chain exposes a stack: what `errors.As`
finds, the number of Carriers and the number of captures stay as they are. -/
theorem apply_exposed (rt : Runtime) (op : Op) (e : Err) (s : State)
    (h : (errorsAs e).isSome = true) :
    ∃ r s2, op.apply rt (some e, s) = (some r, s2) ∧ errorsAs r = errorsAs e ∧
      r.carriers = e.carriers ∧ s2.captures = s.captures := by
  cases op with
  | w stack => exact ⟨e, s, W_of_exposed rt s stack e h, rfl, rfl, rfl⟩
  | wrap stack msg =>
    refine ⟨.wrapError s.next (msg ++ ": " ++ fmtOperand e) e, { s with next := s.next + 1 },
      ?_, errorsAs_wrapError _ _ _, carriers_wrapError _ _ _, rfl⟩
    exact (Wrap_some rt s stack e msg).trans
      (W_of_exposed rt _ _ _ (by rwa [errorsAs_wrapError]))

/-- Any sequence of operations on an error whose chain exposes a stack keeps
what `errors.As` finds, the number of Carriers and the number of captures. -/
theorem run_exposed (rt : Runtime) : ∀ (ops : List Op) (e : Err) (s : State),
    (errorsAs e).isSome = true →
    ∃ r s2, run rt (some e, s) ops = (some r, s2) ∧ errorsAs r = errorsAs e ∧
      r.carriers = e.carriers ∧ s2.captures = s.captures
  | [], e, s, _ => ⟨e, s, rfl, rfl, rfl, rfl⟩
  | op :: ops, e, s, h => by
    obtain ⟨r1, s1, h1, ha1, hc1, hk1⟩ := apply_exposed rt op e s h
    obtain ⟨r, s2, h2, ha2, hc2, hk2⟩ := run_exposed rt ops r1 s1 (by rwa [ha1])
    refine ⟨r, s2, ?_, ha2.trans ha1, hc2.trans hc1, hk2.trans hk1⟩
    simpa [run, h1] using h2

/-- One operation on an error whose chain exposes no stack creates the one
Carrier of the result. -/
theorem apply_hidden (rt : Runtime) (op : Op) (e : Err) (s : State)
    (h : errorsAs e = none) :
    ∃ r s2, op.apply rt (some e, s) = (some r, s2) ∧ (errorsAs r).isSome = true ∧
      r.carriers = 1 := by
  have hzero := carriers_of_errorsAs_none e h
  cases op with
  | w stack =>
    exact ⟨_, _, W_of_hidden rt s stack e h, by simp [errorsAs],
      by rw [carriers_withStack, hzero]⟩
  | wrap stack msg =>
    refine ⟨_, _, (Wrap_some rt s stack e msg).trans
      (W_of_hidden rt _ _ _ (by rwa [errorsAs_wrapError])), by simp [errorsAs], ?_⟩
    rw [carriers_withStack, carriers_wrapError, hzero]

/-! ## The claims -/

/-- C1: for every non-nil error whose cause chain exposes the stack-bearing
capability (the error is itself a Carrier, or some link reachable by
unwrapping has a method `Stack() []Frame`), `W` returns the error itself, and
the state is unchanged: no new Carrier is allocated and no capture is made. -/
theorem C1_W_returns_exposed_error_itself (rt : Runtime) (s : State)
    (stack : List Nat) (err : Err)
    (h : err.isWithStack = true ∨ ∃ l ∈ err.links, l.hasStackMethod = true) :
    W rt s stack (some err) = (some err, s) := by
  apply W_of_exposed
  rcases h with h | h
  · exact errorsAs_of_link err ⟨err, err.self_mem_links, isWithStack_hasStackMethod err h⟩
  · exact errorsAs_of_link err h

/-- Witness of C1: a foreign wrapper around a Carrier is returned as it is. -/
theorem C1_witness :
    (sampleNested.isWithStack = true ∨
        ∃ l ∈ sampleNested.links, l.hasStackMethod = true) ∧
      W sampleRuntime sampleState [5] (some sampleNested)
        = (some sampleNested, sampleState) :=
  have h : sampleNested.isWithStack = true ∨
      ∃ l ∈ sampleNested.links, l.hasStackMethod = true :=
    Or.inr ⟨.withStack 104 sampleBase [5, 6], by simp [sampleNested, Err.links], rfl⟩
  ⟨h, C1_W_returns_exposed_error_itself sampleRuntime sampleState [5] sampleNested h⟩

/-- C2: idempotence of `W`. For every non-nil error `e`, applying `W` to the
result of `W` on `e` (from any call site) returns that same value in the same
state, and so `Stack` gives the same frames, in the same order, for both. -/
theorem C2_W_idempotent (rt : Runtime) (s : State) (stack1 stack2 : List Nat)
    (e : Err) :
    W rt (W rt s stack1 (some e)).2 stack2 (W rt s stack1 (some e)).1
        = W rt s stack1 (some e) ∧
      Stack rt (W rt (W rt s stack1 (some e)).2 stack2 (W rt s stack1 (some e)).1).1
        = Stack rt (W rt s stack1 (some e)).1 := by
  have key : W rt (W rt s stack1 (some e)).2 stack2 (W rt s stack1 (some e)).1
      = W rt s stack1 (some e) := by
    cases h : errorsAs e with
    | none =>
      rw [W_of_hidden rt s stack1 e h]
      exact W_of_exposed _ _ _ _ (by simp [errorsAs])
    | some t =>
      rw [W_of_exposed rt s stack1 e (by simp [h])]
      exact W_of_exposed _ _ _ _ (by simp [h])
  exact ⟨key, by rw [key]⟩

/-- C3, as stated, fails: with `W` as the entry of a goroutine
(`go e.W(err)`), the only frame captured is `runtime.goexit`, the filter drops
it, and `Stack` of the result has no frame, though the error had no stack. -/
theorem C3_counterexample :
    errorsAs sampleBase = none ∧
      (Stack sampleRuntime
        (W sampleRuntime sampleState [7] (some sampleBase)).1).len = 0 :=
  ⟨rfl, rfl⟩

/-- C3, amended: for every non-nil error `e` whose cause chain does not
already expose a stack, `Stack(W(e))` is non-empty, provided the caller's
stack is not empty and the runtime yields, for its first `depth` entries, at
least one frame outside the runtime and outside this package. -/
theorem C3_Stack_of_W_nonempty (rt : Runtime) (s : State) (stack : List Nat)
    (e : Err) (h : errorsAs e = none) (hstack : stack ≠ [])
    (hframe : ∃ f ∈ rt.CallersFrames (stack.take depth), internal f = false) :
    0 < (Stack rt (W rt s stack (some e)).1).len := by
  obtain ⟨f, hf, hint⟩ := hframe
  have hne : rt.CallersFrames (stack.take depth) ≠ [] := List.ne_nil_of_mem hf
  have hlen : (stack.take depth).length ≠ 0 := by
    simpa using take_depth_ne_nil stack hstack
  rw [W_of_hidden rt s stack e h, Stack_withStack, withStack.Stack, if_neg hlen,
    stackLoop_eq _ _ hne]
  simp only [Frames.len, List.nil_append, List.length_map]
  apply List.length_pos_of_mem (a := f)
  simp [List.mem_filter, hf, hint]

/-- Witness of C3: `W` called from `main.run`, itself started as a goroutine. -/
theorem C3_witness :
    errorsAs sampleBase = none ∧
      0 < (Stack sampleRuntime
        (W sampleRuntime sampleState [5, 7] (some sampleBase)).1).len :=
  ⟨rfl, C3_Stack_of_W_nonempty sampleRuntime sampleState [5, 7] sampleBase rfl
    (by simp) ⟨⟨"main.run", "/app/main.go", 5⟩, by decide, by decide⟩⟩

/-- C4: filtering completeness. For every slice of program counters and every
resolution of it by the runtime, no frame returned by the Carrier's method
`Stack` has a function name that starts with `runtime.` or with `selfPkg`. -/
theorem C4_Stack_has_no_internal_frame (rt : Runtime) (pcs : List Nat)
    (frames : List Frame) (h : withStack.Stack rt pcs = some frames) :
    ∀ fr ∈ frames,
      startsWith fr.Func "runtime." = false ∧ startsWith fr.Func selfPkg = false := by
  intro fr hfr
  unfold withStack.Stack at h
  split at h
  · exact absurd h (by simp)
  · have hfr2 : fr ∈ stackLoop (rt.CallersFrames pcs) [] := by
      have := Option.some.inj h
      rw [this]
      exact hfr
    obtain ⟨f, hint, rfl⟩ := mem_stackLoop _ _ hfr2
    simpa [internal, mkFrame] using hint

/-- Witness of C4: a capture through `Wrap` from `main.run`, started as a
goroutine, decodes to the single frame of `main.run`. -/
theorem C4_witness :
    withStack.Stack sampleRuntime [903, 5, 7] = some [⟨"main.run", "/app/main.go:5"⟩] ∧
      ∀ fr ∈ [(⟨"main.run", "/app/main.go:5"⟩ : Frame)],
        startsWith fr.Func "runtime." = false ∧ startsWith fr.Func selfPkg = false :=
  ⟨by decide, C4_Stack_has_no_internal_frame sampleRuntime [903, 5, 7] _ (by decide)⟩

/-- C5, as stated, fails: `fmt.Errorf` asks an operand that implements
`fmt.Formatter` for its text through `Format`, not through `Error`, so for an
error whose `Format` writes something else the message of `Wrap(e, m)` is not
`m`, a colon, a space and the message of `e`. -/
theorem C5_counterexample :
    (Wrap sampleRuntime sampleState [5] (some sampleFormatted) "context").1.map Err.Error
        = some "context: formatted" ∧
      sampleFormatted.Error = "plain" :=
  ⟨rfl, rfl⟩

/-- C5, amended: message composition. For every non-nil error `e` and every
message `m`, the message of `Wrap(e, m)` is `m`, a colon, a space and what
`fmt` writes for `e`, which is the message of `e` whenever `e` has no `Format`
method: when `e` already carries a stack the result is the context wrapper
with no Carrier added, and when it does not the result is a new Carrier on top
of the context wrapper. -/
theorem C5_Wrap_message (rt : Runtime) (s : State) (stack : List Nat) (e : Err)
    (m : String) :
    (Wrap rt s stack (some e) m).1.map Err.Error = some (m ++ ": " ++ fmtOperand e) ∧
      (e.formatMethod = none →
        (Wrap rt s stack (some e) m).1.map Err.Error = some (m ++ ": " ++ e.Error)) ∧
      ((errorsAs e).isSome = true →
        (Wrap rt s stack (some e) m).1
          = some (.wrapError s.next (m ++ ": " ++ fmtOperand e) e)) ∧
      (errorsAs e = none →
        (Wrap rt s stack (some e) m).1
          = some (.withStack (s.next + 1) (.wrapError s.next (m ++ ": " ++ fmtOperand e) e)
              ((rt.pcInWrap :: stack).take depth))) := by
  have hexp : (errorsAs e).isSome = true →
      (Wrap rt s stack (some e) m).1
        = some (.wrapError s.next (m ++ ": " ++ fmtOperand e) e) := by
    intro h
    rw [Wrap_some, W_of_exposed _ _ _ _ (by rwa [errorsAs_wrapError])]
  have hhid : errorsAs e = none →
      (Wrap rt s stack (some e) m).1
        = some (.withStack (s.next + 1) (.wrapError s.next (m ++ ": " ++ fmtOperand e) e)
            ((rt.pcInWrap :: stack).take depth)) := by
    intro h
    rw [Wrap_some, W_of_hidden _ _ _ _ (by rwa [errorsAs_wrapError])]
  have hmsg : (Wrap rt s stack (some e) m).1.map Err.Error
      = some (m ++ ": " ++ fmtOperand e) := by
    cases h : errorsAs e with
    | none => rw [hhid h]; rfl
    | some t => rw [hexp (by simp [h])]; rfl
  refine ⟨hmsg, ?_, hexp, hhid⟩
  intro hf
  rw [hmsg, fmtOperand, hf]

/-- Witness of C5: `Wrap(errors.New("base"), "context")` reads
`context: base`. -/
theorem C5_witness :
    sampleBase.formatMethod = none ∧
      (Wrap sampleRuntime sampleState [5] (some sampleBase) "context").1.map Err.Error
        = some "context: base" :=
  ⟨rfl, (C5_Wrap_message sampleRuntime sampleState [5] sampleBase "context").2.1 rfl⟩

/-- A Carrier is a pointer: comparing it never panics. -/
theorem compareStep_withStack (c : Bool) (a : Nat) (x : Err) (pcs : List Nat)
    (t : Err) : compareStep c (.withStack a x pcs) t ≠ .panics := by
  simp only [compareStep, Err.same]
  split_ifs <;> simp

/-- A `*fmt.wrapError` is a pointer: comparing it never panics. -/
theorem compareStep_wrapError (c : Bool) (a : Nat) (msg : String) (x : Err)
    (t : Err) : compareStep c (.wrapError a msg x) t ≠ .panics := by
  simp only [compareStep, Err.same]
  split_ifs <;> simp

/-- What `errors.Is` finds in an error it finds under a Carrier around it. -/
theorem isLoop_withStack (t : Err) (c : Bool) (a : Nat) (x : Err) (pcs : List Nat)
    (h : isLoop t c x = some true) : isLoop t c (.withStack a x pcs) = some true := by
  have hp := compareStep_withStack c a x pcs t
  simp only [isLoop]
  cases hc : compareStep c (.withStack a x pcs) t with
  | equal => rfl
  | differ => exact h
  | panics => exact absurd hc hp

/-- What `errors.Is` finds in an error it finds under a context wrapper around
it. -/
theorem isLoop_wrapError (t : Err) (c : Bool) (a : Nat) (msg : String) (x : Err)
    (h : isLoop t c x = some true) : isLoop t c (.wrapError a msg x) = some true := by
  have hp := compareStep_wrapError c a msg x t
  simp only [isLoop]
  cases hc : compareStep c (.wrapError a msg x) t with
  | equal => rfl
  | differ => exact h
  | panics => exact absurd hc hp

/-- C6, as stated, fails: `errors.Is` compares with `==` only when the
target's type is comparable, so for an error of a slice type without an `Is`
method neither `errors.Is(W(e), e)` nor `errors.Is(Wrap(e, m), e)` holds. Nor
is a comparable type enough: a value holding NaN differs from itself, and
comparing a struct that holds a slice in an interface field panics. -/
theorem C6_counterexample :
    errorsIs (W sampleRuntime sampleState [5] (some sampleSlice)).1
        (some sampleSlice) = some false ∧
      errorsIs (Wrap sampleRuntime sampleState [5] (some sampleSlice) "context").1
        (some sampleSlice) = some false ∧
      errorsIs (W sampleRuntime sampleState [5] (some sampleNaN)).1
        (some sampleNaN) = some false ∧
      errorsIs (W sampleRuntime sampleState [5] (some samplePayload)).1
        (some samplePayload) = none :=
  ⟨rfl, rfl, rfl, rfl⟩

/-- C6, amended: cause-chain preservation. For every non-nil error `e` and
every message `m`, `e` itself is a link of the unwrap chain of `W(e)` and of
`Wrap(e, m)`; and when the dynamic type of `e` is comparable and the
comparison of `e` with itself yields true, `errors.Is(W(e), e)` and
`errors.Is(Wrap(e, m), e)` return true. -/
theorem C6_cause_chain_preserved (rt : Runtime) (s : State) (stack : List Nat)
    (e : Err) (m : String) :
    (∃ r, (W rt s stack (some e)).1 = some r ∧ e ∈ r.links) ∧
      (∃ r, (Wrap rt s stack (some e) m).1 = some r ∧ e ∈ r.links) ∧
      (e.comparable = true → e.same e = .equal →
        errorsIs (W rt s stack (some e)).1 (some e) = some true ∧
          errorsIs (Wrap rt s stack (some e) m).1 (some e) = some true) := by
  have hloop : e.comparable = true → e.same e = .equal →
      isLoop e e.comparable e = some true := by
    intro hc hs
    rw [hc]
    cases e <;> simp [isLoop, compareStep, hs]
  cases h : errorsAs e with
  | none =>
    have hw := W_of_hidden rt s stack e h
    have hwr : Wrap rt s stack (some e) m = _ :=
      (Wrap_some rt s stack e m).trans
        (W_of_hidden rt _ _ _ (by rwa [errorsAs_wrapError]))
    refine ⟨⟨_, by rw [hw], ?_⟩, ⟨_, by rw [hwr], ?_⟩, ?_⟩
    · simp [Err.links, e.self_mem_links]
    · simp [Err.links, e.self_mem_links]
    · intro hc hs
      rw [hw, hwr]
      exact ⟨isLoop_withStack _ _ _ _ _ (hloop hc hs),
        isLoop_withStack _ _ _ _ _ (isLoop_wrapError _ _ _ _ _ (hloop hc hs))⟩
  | some t =>
    have hs : (errorsAs e).isSome = true := by simp [h]
    have hw := W_of_exposed rt s stack e hs
    have hwr : Wrap rt s stack (some e) m = _ :=
      (Wrap_some rt s stack e m).trans
        (W_of_exposed rt _ _ _ (by rwa [errorsAs_wrapError]))
    refine ⟨⟨_, by rw [hw], e.self_mem_links⟩, ⟨_, by rw [hwr], ?_⟩, ?_⟩
    · simp [Err.links, e.self_mem_links]
    · intro hc hse
      rw [hw, hwr]
      exact ⟨hloop hc hse, isLoop_wrapError _ _ _ _ _ (hloop hc hse)⟩

/-- Witness of C6: `errors.Is` finds `errors.New("base")` under `W` and under
`Wrap`. -/
theorem C6_witness :
    sampleBase.comparable = true ∧ sampleBase.same sampleBase = .equal ∧
      errorsIs (W sampleRuntime sampleState [5] (some sampleBase)).1
        (some sampleBase) = some true ∧
      errorsIs (Wrap sampleRuntime sampleState [5] (some sampleBase) "context").1
        (some sampleBase) = some true :=
  ⟨rfl, rfl,
    (C6_cause_chain_preserved sampleRuntime sampleState [5] sampleBase "context").2.2 rfl rfl⟩

/-- C7: nil propagation. `W(nil)` is nil and, for every message, `Wrap(nil, m)`
is nil; the state is unchanged in both, so neither a Carrier nor a context
wrapper is allocated and nothing is captured. -/
theorem C7_nil_propagates (rt : Runtime) (s : State) (stack : List Nat)
    (m : String) :
    W rt s stack none = (none, s) ∧ Wrap rt s stack none m = (none, s) :=
  ⟨rfl, rfl⟩

/-- C8, as stated, fails: when the chain of `e` already has a stack-bearing
link whose `Stack()` returns nil, `Wrap` adds no Carrier and
`Stack(Wrap(e, m))` is nil. -/
theorem C8_counterexample :
    Stack sampleRuntime
      (Wrap sampleRuntime sampleState [5] (some sampleTraced) "context").1 = none :=
  rfl

/-- C8, amended: `Wrap` ensures a stack-bearing link. For every non-nil error
`e` and every message `m`, `errors.As` finds a stack-bearing link in the chain
of `Wrap(e, m)`. When the chain of `e` had none, the link is the newly created
outermost Carrier and `Stack(Wrap(e, m))` is not nil; otherwise it is what
`errors.As` finds in `e`, and `Stack(Wrap(e, m))` equals `Stack(e)`. -/
theorem C8_Wrap_ensures_stack_link (rt : Runtime) (s : State) (stack : List Nat)
    (e : Err) (m : String) :
    ∃ r, (Wrap rt s stack (some e) m).1 = some r ∧
      (errorsAs r).isSome = true ∧
      (errorsAs e = none →
        r = .withStack (s.next + 1) (.wrapError s.next (m ++ ": " ++ fmtOperand e) e)
              ((rt.pcInWrap :: stack).take depth) ∧
          errorsAs r = some (.link r) ∧ Stack rt (some r) ≠ none) ∧
      ((errorsAs e).isSome = true →
        errorsAs r = errorsAs e ∧ Stack rt (some r) = Stack rt (some e)) := by
  cases h : errorsAs e with
  | none =>
    have hwr : Wrap rt s stack (some e) m = _ :=
      (Wrap_some rt s stack e m).trans
        (W_of_hidden rt _ _ _ (by rwa [errorsAs_wrapError]))
    refine ⟨_, by rw [hwr], by simp [errorsAs], ?_, by simp⟩
    intro _
    refine ⟨rfl, by simp [errorsAs], ?_⟩
    rw [Stack_withStack, withStack.Stack, if_neg (by simp [depth])]
    simp
  | some t =>
    have hs : (errorsAs e).isSome = true := by simp [h]
    have hwr : Wrap rt s stack (some e) m = _ :=
      (Wrap_some rt s stack e m).trans
        (W_of_exposed rt _ _ _ (by rwa [errorsAs_wrapError]))
    refine ⟨_, by rw [hwr], by simp [errorsAs, h], by simp, ?_⟩
    intro _
    exact ⟨by simp [errorsAs, h], by simp [Stack, errorsAs, h]⟩

/-- Witness of C8: `Wrap` of `errors.New("base")` has a stack that is not
nil. -/
theorem C8_witness :
    errorsAs sampleBase = none ∧
      Stack sampleRuntime
        (Wrap sampleRuntime sampleState [5] (some sampleBase) "context").1 ≠ none :=
  ⟨rfl, by
    obtain ⟨r, hr, _, hnew, _⟩ :=
      C8_Wrap_ensures_stack_link sampleRuntime sampleState [5] sampleBase "context"
    rw [hr]
    exact (hnew rfl).2.2⟩

/-- C9: first capture wins. For every non-nil error `e` whose cause chain
already exposes a stack and every message `m`, `Wrap(e, m)` is a new context
wrapper around `e` with no Carrier and no capture, and `Stack(Wrap(e, m))`
equals `Stack(e)`; after any further sequence of `W` and `Wrap` applied to the
result, `Stack` still equals `Stack(e)`, no capture has been made and the
chain holds as many Carriers as that of `e`. -/
theorem C9_first_capture_wins (rt : Runtime) (s : State) (stack : List Nat)
    (e : Err) (m : String) (ops : List Op) (h : (errorsAs e).isSome = true) :
    Wrap rt s stack (some e) m
        = (some (.wrapError s.next (m ++ ": " ++ fmtOperand e) e),
            { s with next := s.next + 1 }) ∧
      Stack rt (Wrap rt s stack (some e) m).1 = Stack rt (some e) ∧
      Stack rt (run rt (Wrap rt s stack (some e) m) ops).1 = Stack rt (some e) ∧
      (run rt (Wrap rt s stack (some e) m) ops).2.captures = s.captures ∧
      ∃ r, (run rt (Wrap rt s stack (some e) m) ops).1 = some r ∧
        r.carriers = e.carriers := by
  have hwr : Wrap rt s stack (some e) m
      = (some (.wrapError s.next (m ++ ": " ++ fmtOperand e) e),
          { s with next := s.next + 1 }) :=
    (Wrap_some rt s stack e m).trans
      (W_of_exposed rt _ _ _ (by rwa [errorsAs_wrapError]))
  obtain ⟨r, s2, hrun, has, hcar, hcap⟩ :=
    run_exposed rt ops (.wrapError s.next (m ++ ": " ++ fmtOperand e) e)
      { s with next := s.next + 1 } (by rwa [errorsAs_wrapError])
  rw [errorsAs_wrapError] at has
  rw [carriers_wrapError] at hcar
  refine ⟨hwr, ?_, ?_, ?_, r, ?_, hcar⟩
  · rw [hwr, Stack_wrapError]
  · rw [hwr, hrun]
    simp [Stack, has]
  · rw [hwr, hrun]
    exact hcap
  · rw [hwr, hrun]

/-- Witness of C9: a Carrier made at one call site keeps its stack through
`Wrap`, `W` and `Wrap` again from other call sites. -/
theorem C9_witness :
    (errorsAs (.withStack 0 sampleBase [5, 7])).isSome = true ∧
      Stack sampleRuntime
        (run sampleRuntime
          (Wrap sampleRuntime ⟨1, 1⟩ [6, 7] (some (.withStack 0 sampleBase [5, 7])) "a")
          [.w [8, 7], .wrap [9, 7] "b"]).1
        = Stack sampleRuntime (some (.withStack 0 sampleBase [5, 7])) :=
  ⟨rfl, (C9_first_capture_wins sampleRuntime ⟨1, 1⟩ [6, 7]
    (.withStack 0 sampleBase [5, 7]) "a" [.w [8, 7], .wrap [9, 7] "b"] rfl).2.2.1⟩

/-- C10: single-Carrier invariant. For every base error in whose chain
`errors.As` finds no stack-bearing link, the error obtained by any finite
non-empty sequence of `W` and `Wrap` applications has exactly one Carrier
among the links of its unwrap chain; and no sequence of `W` and `Wrap`
applications to an error with at most one Carrier in its chain produces a
chain with two. -/
theorem C10_exactly_one_carrier (rt : Runtime) (s : State) (base : Err)
    (ops : List Op) :
    ∃ r, (run rt (some base, s) ops).1 = some r ∧
      (errorsAs base = none → ops ≠ [] → r.carriers = 1) ∧
      (base.carriers ≤ 1 → r.carriers ≤ 1) := by
  cases h : errorsAs base with
  | some t =>
    obtain ⟨r, s2, h2, _, hc2, _⟩ := run_exposed rt ops base s (by simp [h])
    exact ⟨r, by rw [h2], fun hn => absurd hn (by simp), fun hb => hc2 ▸ hb⟩
  | none =>
    cases ops with
    | nil => exact ⟨base, rfl, fun _ hops => absurd rfl hops, fun hb => hb⟩
    | cons op rest =>
      obtain ⟨r1, s1, h1, ha1, hc1⟩ := apply_hidden rt op base s h
      obtain ⟨r, s2, h2, _, hc2, _⟩ := run_exposed rt rest r1 s1 ha1
      have hone : r.carriers = 1 := hc2.trans hc1
      refine ⟨r, ?_, fun _ _ => hone, fun _ => hone.le⟩
      simp [run, h1] at h2 ⊢
      rw [h2]

/-- Witness of C10: `Wrap`, `W`, `Wrap` on `errors.New("base")` leave one
Carrier in the chain. -/
theorem C10_witness :
    errorsAs sampleBase = none ∧
      ∃ r, (run sampleRuntime (some sampleBase, sampleState)
          [.wrap [5, 7] "a", .w [6, 7], .wrap [8, 7] "b"]).1 = some r ∧
        r.carriers = 1 :=
  ⟨rfl, by
    obtain ⟨r, hr, hone, _⟩ := C10_exactly_one_carrier sampleRuntime sampleState
      sampleBase [.wrap [5, 7] "a", .w [6, 7], .wrap [8, 7] "b"]
    exact ⟨r, hr, hone rfl (by simp)⟩⟩

/-! ## Lemmas for retrieval, capture and decoding -/

theorem findSome_none_of_forall {α β : Type} (f : α → Option β) :
    ∀ (l : List α), (∀ x ∈ l, f x = none) → l.findSome? f = none
  | [], _ => rfl
  | a :: rest, h => by
    rw [List.findSome?_cons, h a (by simp)]
    exact findSome_none_of_forall f rest fun x hx => h x (by simp [hx])

theorem findSome_of_split {α β : Type} (f : α → Option β) (l : α) (post : List α)
    (t : β) (hl : f l = some t) :
    ∀ (pre : List α), (∀ x ∈ pre, f x = none) →
      (pre ++ l :: post).findSome? f = some t
  | [], _ => by simp [List.findSome?_cons, hl]
  | a :: rest, h => by
    rw [List.cons_append, List.findSome?_cons, h a (by simp)]
    exact findSome_of_split f l post t hl rest fun x hx => h x (by simp [hx])

mutual
/-- The call `errors.As` returns what the first link of the chain that exposes
anything exposes. -/
theorem errorsAs_eq_findSome : ∀ (e : Err), errorsAs e = e.links.findSome? Err.here
  | .withStack _ _ _ => by simp [errorsAs, Err.links, Err.here, List.findSome?_cons]
  | .wrapError _ _ err => by
    rw [errorsAs, Err.links, List.findSome?_cons]
    simpa [Err.here] using errorsAs_eq_findSome err
  | .leaf a m => by
    rw [errorsAs, Err.links, List.findSome?_cons]
    cases h : asHere m (.leaf a m) <;> simp [Err.here, h]
  | .link a m cause => by
    rw [errorsAs, Err.links, List.findSome?_cons]
    cases h : asHere m (.link a m cause) with
    | some t => simp [Err.here, h]
    | none => simpa [Err.here, h] using errorsAs_eq_findSome cause
  | .join a m causes => by
    rw [errorsAs, Err.links, List.findSome?_cons]
    cases h : asHere m (.join a m causes) with
    | some t => simp [Err.here, h]
    | none => simpa [Err.here, h] using errorsAsList_eq_findSome causes

/-- The same for the causes of a link with `Unwrap() []error`. -/
theorem errorsAsList_eq_findSome : ∀ (es : Errs),
    errorsAsList es = es.links.findSome? Err.here
  | .nil => by simp [errorsAsList, Errs.links]
  | .cons head tail => by
    rw [errorsAsList, Errs.links, List.findSome?_append,
      ← errorsAs_eq_findSome head, ← errorsAsList_eq_findSome tail]
    cases errorsAs head <;> rfl
end

theorem here_of_hasStackMethod (l : Err) (h : l.hasStackMethod = true) :
    l.here = some (.link l) := by
  cases l with
  | withStack a err pcs => rfl
  | wrapError a msg err => simp [Err.hasStackMethod] at h
  | leaf a m => exact asHere_of_stack m _ h
  | link a m cause => exact asHere_of_stack m _ h
  | join a m causes => exact asHere_of_stack m _ h

theorem callers_length (rt : Runtime) (s : State) (stack : List Nat) :
    (callers rt s stack).1.length ≤ depth := by
  simp [callers, runtimeCallers]

/-- The frames yielded, in terms of `Next`: the frame `Next` returns, and
those yielded afterwards when `more` is true. -/
theorem yielded_Next (it : List RFrame) :
    yielded it =
      (Next it).1 :: (if (Next it).2.1 then yielded (Next it).2.2 else []) := by
  match it with
  | [] => simp [yielded, Next]
  | [f] => simp [yielded, Next]
  | f :: g :: rest => simp [yielded, Next]

theorem yielded_of_ne_nil : ∀ (it : List RFrame), it ≠ [] → yielded it = it
  | [], h => absurd rfl h
  | [_], _ => rfl
  | f :: g :: rest, _ => by
    rw [yielded, yielded_of_ne_nil (g :: rest) (by simp)]

/-- The loop of `withStack.Stack` appends the frames yielded that pass the
filter, in order, whether the iterator holds frames or not. -/
theorem stackLoop_yielded (it : List RFrame) (frames : List Frame) :
    stackLoop it frames =
      frames ++ ((yielded it).filter fun f => !internal f).map mkFrame := by
  cases it with
  | nil => simp [stackLoop_nil, yielded, List.filter_cons, internal_zero]
  | cons a rest =>
    rw [stackLoop_eq _ _ (by simp), yielded_of_ne_nil _ (by simp)]

/-! ## The claims, continued -/

/-- C11: stack retrieval is total and chain-based. For every error, nil
included, the package-level `Stack` returns a result: nil for the nil error
and when no link of the cause chain exposes the stack-bearing capability, and
otherwise the frames of the first link of the chain that exposes it (the
result of that link's own `Stack()` when the link has the method). -/
theorem C11_Stack_total_first_link (rt : Runtime) :
    Stack rt none = none ∧
      (∀ e : Err, (∀ l ∈ e.links, l.here = none) → Stack rt (some e) = none) ∧
      (∀ (e : Err) (pre post : List Err) (l : Err) (t : Target),
        e.links = pre ++ l :: post → (∀ x ∈ pre, x.here = none) →
        l.here = some t → Stack rt (some e) = t.Stack rt) ∧
      (∀ (e : Err) (pre post : List Err) (l : Err),
        e.links = pre ++ l :: post → (∀ x ∈ pre, x.here = none) →
        l.hasStackMethod = true → Stack rt (some e) = l.StackMethod rt) := by
  have key : ∀ (e : Err) (pre post : List Err) (l : Err) (t : Target),
      e.links = pre ++ l :: post → (∀ x ∈ pre, x.here = none) →
      l.here = some t → Stack rt (some e) = t.Stack rt := by
    intro e pre post l t hsplit hpre hl
    simp only [Stack]
    rw [errorsAs_eq_findSome, hsplit, findSome_of_split Err.here l post t hl pre hpre]
  refine ⟨rfl, ?_, key, ?_⟩
  · intro e hnone
    simp only [Stack]
    rw [errorsAs_eq_findSome, findSome_none_of_forall Err.here e.links hnone]
  · intro e pre post l hsplit hpre hl
    rw [key e pre post l (.link l) hsplit hpre (here_of_hasStackMethod l hl)]
    rfl

/-- Witness of C11: under a foreign wrapper without a stack, the Carrier is
the first link that exposes one, and `Stack` decodes its program counters. -/
theorem C11_witness :
    sampleNested.links
        = [sampleNested] ++ Err.withStack 104 sampleBase [5, 6] :: [sampleBase] ∧
      Stack sampleRuntime (some sampleNested)
        = (Err.withStack 104 sampleBase [5, 6]).StackMethod sampleRuntime :=
  ⟨rfl, (C11_Stack_total_first_link sampleRuntime).2.2.2 sampleNested [sampleNested]
    [sampleBase] (.withStack 104 sampleBase [5, 6]) rfl
    (by intro x hx; rw [List.mem_singleton.1 hx]; rfl) rfl⟩

/-- C12: `W` does not change the message. For every non-nil error `e`, the
message of `W(e)` is exactly the message of `e`, whether `W` returns `e`
itself or a new Carrier around it. -/
theorem C12_W_keeps_message (rt : Runtime) (s : State) (stack : List Nat)
    (e : Err) :
    (W rt s stack (some e)).1.map Err.Error = some e.Error := by
  cases h : errorsAs e with
  | none => rw [W_of_hidden rt s stack e h]; rfl
  | some t => rw [W_of_exposed rt s stack e (by simp [h])]; rfl

/-- C13: depth bound. Whatever the calling stack, `callers` returns at most
`depth` = 32 program counters, and so the Carrier that `W` creates, directly
or through `Wrap`, on an error without a stack holds at most 32. -/
theorem C13_depth_bound (rt : Runtime) (s : State) (stack : List Nat) (e : Err)
    (m : String) (h : errorsAs e = none) :
    (callers rt s stack).1.length ≤ 32 ∧
      (∃ a pcs, (W rt s stack (some e)).1 = some (.withStack a e pcs) ∧
        pcs.length ≤ 32) ∧
      (∃ a x pcs, (Wrap rt s stack (some e) m).1 = some (.withStack a x pcs) ∧
        pcs.length ≤ 32) := by
  refine ⟨callers_length rt s stack, ⟨_, _, by rw [W_of_hidden rt s stack e h], ?_⟩,
    ⟨_, _, _, by rw [Wrap_some, W_of_hidden _ _ _ _ (by rwa [errorsAs_wrapError])], ?_⟩⟩
  · simp [depth]
  · simp [depth]

/-- Witness of C13: from a stack of forty frames, thirty-two are kept. -/
theorem C13_witness :
    errorsAs sampleBase = none ∧
      (callers sampleRuntime sampleState (List.range 40)).1.length ≤ 32 :=
  ⟨rfl, (C13_depth_bound sampleRuntime sampleState (List.range 40) sampleBase "m" rfl).1⟩

/-- C14, as stated, fails for `Wrap`: `callers` skips the frames of
`runtime.Callers`, `callers` and `W` only, so through `Wrap` the first entry
captured is the frame of `Wrap` itself, not the call site in the user
function, which comes second. -/
theorem C14_counterexample :
    (Wrap sampleRuntime sampleState [5, 7] (some sampleBase) "context").1
        = some (.withStack 1 (.wrapError 0 "context: base" sampleBase)
            [sampleRuntime.pcInWrap, 5, 7]) ∧
      sampleRuntime.pcInWrap ≠ 5 ∧
      sampleRuntime.CallersFrames [sampleRuntime.pcInWrap]
        = [⟨"github.com/devem-tech/e.Wrap", "/e/stack.go", 116⟩] :=
  ⟨rfl, by decide, rfl⟩

/-- C14, amended: on an error without a stack, the capture holds the stack
from the caller of `W` outwards, the frames of `runtime.Callers`, `callers`
and `W` having been skipped. Called directly, `W` records the call site in
its caller as the first entry; through `Wrap`, the first entry is the frame of
`Wrap` and the call site in the caller of `Wrap` comes second. -/
theorem C14_capture_starts_at_caller_of_W (rt : Runtime) (s : State)
    (site : Nat) (outer : List Nat) (e : Err) (m : String)
    (h : errorsAs e = none) :
    (callers rt s (rt.pcInW :: site :: outer)).1
        = ((rt.pcCallers :: rt.pcInCallers :: rt.pcInW :: site :: outer).drop 3).take depth ∧
      (W rt s (site :: outer) (some e)).1
        = some (.withStack s.next e (site :: outer.take 31)) ∧
      (Wrap rt s (site :: outer) (some e) m).1
        = some (.withStack (s.next + 1) (.wrapError s.next (m ++ ": " ++ fmtOperand e) e)
            (rt.pcInWrap :: site :: outer.take 30)) := by
  refine ⟨by rw [callers_fst]; rfl, ?_, ?_⟩
  · rw [W_of_hidden rt s _ e h]; rfl
  · rw [Wrap_some, W_of_hidden _ _ _ _ (by rwa [errorsAs_wrapError])]; rfl

/-- Witness of C14: `W` called at program counter 5 records 5 first. -/
theorem C14_witness :
    errorsAs sampleBase = none ∧
      (W sampleRuntime sampleState [5, 7] (some sampleBase)).1
        = some (.withStack 0 sampleBase [5, 7]) :=
  ⟨rfl, (C14_capture_starts_at_caller_of_W sampleRuntime sampleState 5 [7]
    sampleBase "context" rfl).2.1⟩

/-- C15, as stated, fails: when the runtime resolves none of the captured
program counters, the iterator yields the zero frame, the filter lets it
through, and `Stack` returns one frame whose function name is empty. -/
theorem C15_counterexample :
    Stack sampleStripped (W sampleStripped sampleState [5] (some sampleBase)).1
      = some [⟨"", ":0"⟩] := by
  decide

/-- C15, amended: every frame returned by the Carrier's `Stack` has a
non-empty function name, provided the iterator yields at least one frame for
the captured stack and every frame it yields has a non-empty function name. -/
theorem C15_Func_nonempty (rt : Runtime) (pcs : List Nat) (frames : List Frame)
    (hsome : rt.CallersFrames pcs ≠ [])
    (hnames : ∀ f ∈ rt.CallersFrames pcs, f.Function ≠ "")
    (h : withStack.Stack rt pcs = some frames) :
    ∀ fr ∈ frames, fr.Func ≠ "" := by
  intro fr hfr
  unfold withStack.Stack at h
  split at h
  · exact absurd h (by simp)
  · rw [← Option.some.inj h, stackLoop_eq _ _ hsome] at hfr
    simp only [List.nil_append, List.mem_map, List.mem_filter] at hfr
    obtain ⟨f, ⟨hf, _⟩, rfl⟩ := hfr
    exact hnames f hf

/-- Witness of C15: a capture that resolves to `main.run` and
`runtime.goexit`. -/
theorem C15_witness :
    withStack.Stack sampleRuntime [5, 7] = some [⟨"main.run", "/app/main.go:5"⟩] ∧
      ∀ fr ∈ [(⟨"main.run", "/app/main.go:5"⟩ : Frame)], fr.Func ≠ "" :=
  ⟨by decide, C15_Func_nonempty sampleRuntime [5, 7] _ (by decide) (by decide) (by decide)⟩

/-- C16: structured-log projection. For every Carrier, `LogValue` is a group
of exactly two attributes: `msg`, the message of the cause, and `stack`, the
sequence the Carrier's `Stack` returns, decoded by the runtime in force when
`LogValue` is called. -/
theorem C16_LogValue_group (rt : Runtime) (err : Err) (pcs : List Nat) :
    withStack.LogValue rt err pcs
      = .group [("msg", .string err.Error), ("stack", .any (withStack.Stack rt pcs))] := by
  simp [withStack.LogValue, slogGroupValue, slogString, slogAny, Value.isEmptyGroup]

/-- C17: decode equals filter-then-project. For every non-empty captured
stack, the Carrier's `Stack` returns exactly the frames the iterator yields,
those whose function name starts with `runtime.` or `selfPkg` removed, each of
the others mapped to its function name and its file, a colon and its line in
decimal, in the original order. -/
theorem C17_Stack_eq_filterThenProject (rt : Runtime) (pcs : List Nat)
    (h : pcs ≠ []) :
    withStack.Stack rt pcs = some (filterThenProject rt pcs) := by
  have hlen : pcs.length ≠ 0 := by simpa using h
  rw [withStack.Stack, if_neg hlen, stackLoop_yielded]
  rfl

/-- Witness of C17: a capture through `Wrap` decodes to the user frame alone. -/
theorem C17_witness :
    withStack.Stack sampleRuntime [903, 5, 7]
      = some (filterThenProject sampleRuntime [903, 5, 7]) :=
  C17_Stack_eq_filterThenProject sampleRuntime [903, 5, 7] (by simp)

/-- C18: the fast path of `W` is a pure optimization. For every error, nil
included, `W` returns the same result, in the same state, as its variant
without the concrete-type check, because `errors.As` succeeds on a
`*withStack` at the first link. -/
theorem C18_fast_path_redundant (rt : Runtime) (s : State) (stack : List Nat)
    (err : Option Err) :
    W rt s stack err = WWithoutFastPath rt s stack err := by
  cases err with
  | none => rfl
  | some e =>
    cases hw : e.isWithStack with
    | false => simp [W, WWithoutFastPath, hw]
    | true =>
      have hs : (errorsAs e).isSome = true :=
        errorsAs_of_link e ⟨e, e.self_mem_links, isWithStack_hasStackMethod e hw⟩
      simp [W, WWithoutFastPath, hw, hs]

/-- C19: wrapping never swallows an error. For every non-nil error `e` and
every message `m`, `W(e)` and `Wrap(e, m)` are non-nil; and for every error,
`W` returns nil if and only if the error is nil. -/
theorem C19_wrapping_keeps_non_nil (rt : Runtime) (s : State) (stack : List Nat)
    (m : String) :
    (∀ e : Err, (W rt s stack (some e)).1 ≠ none ∧
        (Wrap rt s stack (some e) m).1 ≠ none) ∧
      ∀ err : Option Err, (W rt s stack err).1 = none ↔ err = none := by
  have hW : ∀ (s : State) (stack : List Nat) (e : Err),
      (W rt s stack (some e)).1 ≠ none := by
    intro s stack e
    cases h : errorsAs e with
    | none => rw [W_of_hidden rt s stack e h]; simp
    | some t => rw [W_of_exposed rt s stack e (by simp [h])]; simp
  refine ⟨fun e => ⟨hW s stack e, ?_⟩, ?_⟩
  · rw [Wrap_some]
    exact hW _ _ _
  · intro err
    cases err with
    | none => simp [W]
    | some e => simpa using hW s stack e

end E
